import Mathlib

/-!
Verification of the statistics core of `ab_test_visualizations.py`.

The script computes a two-proportion pooled Z-test on two experiment arms
(lines 16-47), 95% confidence-interval margins (lines 144-145), a power
curve over 100 evenly spaced sample sizes (lines 218-228) and a
closest-match search for the 80%-power sample size (lines 237-238), and a
relative-lift summary (lines 43 and 350).

The embedding works over ℝ.  Divisions the Python floats cannot perform
(division by zero, which raises `ZeroDivisionError` for plain floats and
yields NaN for numpy scalars) are modelled with `Option ℝ`: `none` stands
for "no real result".  The standard normal CDF Φ (the source calls
`scipy.stats.norm.cdf`) enters as an explicit function parameter; theorems
that need numeric facts about Φ take them as hypotheses, and witnesses
instantiate Φ with a piecewise-constant function agreeing with the normal
CDF to the needed precision at the probe points.
-/

namespace ABTest

noncomputable section

/-- One experiment arm of the data model (spec section 3): visitor count and
conversion count. -/
structure Variant where
  visitors : ℕ
  conversions : ℕ

/-- Conversion rate of one arm (source lines 22-23: `conversions / visitors`). -/
def p_rate (v : Variant) : ℝ := (v.conversions : ℝ) / (v.visitors : ℝ)

/-- Pooled proportion (source line 26). -/
def p_pooled (control variant : Variant) : ℝ :=
  ((control.conversions : ℝ) + (variant.conversions : ℝ)) /
    ((control.visitors : ℝ) + (variant.visitors : ℝ))

/-- Standard error of the rate difference under the null hypothesis
(source line 29). -/
def se (control variant : Variant) : ℝ :=
  Real.sqrt (p_pooled control variant * (1 - p_pooled control variant) *
    (1 / (control.visitors : ℝ) + 1 / (variant.visitors : ℝ)))

/-- Z statistic (source line 32).  The source divides by `se` with no guard;
`none` models the non-real (NaN) float produced when `se = 0`. -/
def z_stat (control variant : Variant) : Option ℝ :=
  if se control variant = 0 then none
  else some ((p_rate variant - p_rate control) / se control variant)

/-- Two-tailed p-value (source line 35: `2 * (1 - Φ |z|)`), parametric in the
standard normal CDF. -/
def p_value (control variant : Variant) (Φ : ℝ → ℝ) : Option ℝ :=
  (z_stat control variant).map (fun z => 2 * (1 - Φ |z|))

/-- Derived result bundle (spec section 3).  `z_statistic` and `p_value` are
`Option ℝ`: `none` models the NaN floats the source produces when the standard
error is zero.  `significant` is the verdict of source line 47; a NaN p-value
compares false against 0.05, which the existential captures. -/
@[ext]
structure TestResult where
  control_rate : ℝ
  variant_rate : ℝ
  pooled_rate : ℝ
  standard_error : ℝ
  z_statistic : Option ℝ
  p_value : Option ℝ
  significant : Prop

/-- The test computation of source lines 16-47 as a function of the two arms,
parametric in the normal CDF.  The outer `none` models the `ZeroDivisionError`
raised when an arm has zero visitors (integer rate division, lines 22-23). -/
def compute_test_result (control variant : Variant) (Φ : ℝ → ℝ) :
    Option TestResult :=
  if control.visitors = 0 ∨ variant.visitors = 0 then none
  else some
    { control_rate := p_rate control
      variant_rate := p_rate variant
      pooled_rate := p_pooled control variant
      standard_error := se control variant
      z_statistic := z_stat control variant
      p_value := p_value control variant Φ
      significant := ∃ p, p_value control variant Φ = some p ∧ p < 0.05 }

/-- Definition following the words of claim C1 (spec section 4.1): the
closed-form formulas for every field of the test result. -/
def spec_test_result (control variant : Variant) (Φ : ℝ → ℝ) : TestResult :=
  let cr := (control.conversions : ℝ) / (control.visitors : ℝ)
  let vr := (variant.conversions : ℝ) / (variant.visitors : ℝ)
  let pr := ((control.conversions : ℝ) + (variant.conversions : ℝ)) /
    ((control.visitors : ℝ) + (variant.visitors : ℝ))
  let serr := Real.sqrt (pr * (1 - pr) *
    (1 / (control.visitors : ℝ) + 1 / (variant.visitors : ℝ)))
  let z := (vr - cr) / serr
  { control_rate := cr
    variant_rate := vr
    pooled_rate := pr
    standard_error := serr
    z_statistic := some z
    p_value := some (2 * (1 - Φ |z|))
    significant := 2 * (1 - Φ |z|) < 0.05 }

/-- Statistical power at a given effect size, pooled rate and per-arm sample
size (source lines 221-227): `1 - Φ (1.96 - effect / √(pooled·(1-pooled)·(2/n)))`. -/
def statistical_power (Φ : ℝ → ℝ) (effect pooled n : ℝ) : ℝ :=
  1 - Φ (1.96 - effect / Real.sqrt (pooled * (1 - pooled) * (2 / n)))

/-- The 100 evenly spaced sample sizes `np.linspace(lo, hi, 100)` of source
line 218, generalized over the search range as in spec section 4.1. -/
def sampleGrid (lo hi : ℝ) : List ℝ :=
  (List.range 100).map (fun (i : ℕ) => lo + (i : ℝ) * (hi - lo) / 99)

/-- Closest-match sample-size search of source lines 237-238: among the grid
points, return the (first) one whose power is closest to the target. -/
def minimum_sample_size_for_power (Φ : ℝ → ℝ) (target effect pooled lo hi : ℝ) :
    ℝ :=
  ((sampleGrid lo hi).argmin
    (fun n => |statistical_power Φ effect pooled n - target|)).getD lo

/-- Margin of the 95% confidence interval (source lines 144-145), generalized
over rate, sample size and critical value as in spec section 4.1. -/
def ci_margin (rate : ℝ) (n : ℕ) (z_critical : ℝ) : ℝ :=
  z_critical * Real.sqrt (rate * (1 - rate) / (n : ℝ))

/-- Confidence interval around a rate: the source draws the symmetric error
bars `rate ± margin` (lines 152-155), which spec section 4.1 words as the pair
below.  No clamping to [0,1] appears anywhere in the source. -/
def confidence_interval (rate : ℝ) (n : ℕ) (z_critical : ℝ) : ℝ × ℝ :=
  (rate - ci_margin rate n z_critical, rate + ci_margin rate n z_critical)

/-- Relative lift printed by the source (lines 43 and 350):
`(p_variant - p_control) / p_control * 100`.  `none` models the
`ZeroDivisionError` raised when the control rate is zero. -/
def relative_lift (control variant : Variant) : Option ℝ :=
  if p_rate control = 0 then none
  else some ((p_rate variant - p_rate control) / p_rate control * 100)

/-- Piecewise-constant monotone function agreeing with the standard normal CDF
to the precision this development needs at the probe points 1.96, 2.5 and 2.51;
used to instantiate the CDF hypotheses of the theorems at concrete inputs. -/
def witCDF (x : ℝ) : ℝ :=
  if x < 1.96 then 0 else if x < 2.5 then 0.975 else 0.9938

lemma witCDF_mono : Monotone witCDF := by
  intro a b hab
  unfold witCDF
  split_ifs <;> linarith

lemma witCDF_at_196 : witCDF 1.96 = 0.975 := by
  unfold witCDF
  rw [if_neg (by norm_num), if_pos (by norm_num)]

lemma witCDF_lb_25 : (0.9937 : ℝ) ≤ witCDF 2.5 := by
  unfold witCDF
  rw [if_neg (by norm_num), if_neg (by norm_num)]
  norm_num

lemma witCDF_ub_251 : witCDF 2.51 ≤ 0.994 := by
  unfold witCDF
  rw [if_neg (by norm_num), if_neg (by norm_num)]
  norm_num

lemma se_ref_ne_zero : se ⟨10000, 500⟩ ⟨10000, 580⟩ ≠ 0 := by
  rw [se, Real.sqrt_ne_zero']
  norm_num [p_pooled]

/-- C1: for every valid pair of arms (positive visitors, conversions within
range) on which the z statistic is defined (nonzero standard error; the
excluded degenerate case is the subject of C2), the computation returns exactly
the result bundle described by the spec formulas. -/
theorem C1_compute_matches_spec (control variant : Variant) (Φ : ℝ → ℝ)
    (hc : 0 < control.visitors) (hv : 0 < variant.visitors)
    (hcc : control.conversions ≤ control.visitors)
    (hvc : variant.conversions ≤ variant.visitors)
    (hse : se control variant ≠ 0) :
    compute_test_result control variant Φ =
      some (spec_test_result control variant Φ) := by
  have hz : z_stat control variant =
      some ((p_rate variant - p_rate control) / se control variant) := by
    rw [z_stat, if_neg hse]
  have hpv : p_value control variant Φ =
      some (2 * (1 - Φ |(p_rate variant - p_rate control) / se control variant|)) := by
    rw [p_value, hz]
    rfl
  rw [compute_test_result, if_neg (by omega)]
  refine congrArg some ?_
  ext : 1
  · rfl
  · rfl
  · rfl
  · rfl
  · exact hz
  · exact hpv
  · refine propext ⟨?_, ?_⟩
    · rintro ⟨p, hp, hlt⟩
      rw [hpv] at hp
      obtain rfl := Option.some.inj hp
      exact hlt
    · intro h
      exact ⟨_, hpv, h⟩

/-- Witness for C1 at the reference input (10000, 500) vs (10000, 580). -/
theorem C1_compute_matches_spec_w :
    0 < (10000 : ℕ) ∧ se ⟨10000, 500⟩ ⟨10000, 580⟩ ≠ 0 ∧
    compute_test_result ⟨10000, 500⟩ ⟨10000, 580⟩ witCDF =
      some (spec_test_result ⟨10000, 500⟩ ⟨10000, 580⟩ witCDF) :=
  ⟨by decide, se_ref_ne_zero,
    C1_compute_matches_spec ⟨10000, 500⟩ ⟨10000, 580⟩ witCDF (by decide) (by decide)
      (by decide) (by decide) se_ref_ne_zero⟩

/-- C2 evaluation: at the degenerate input control = variant = (100 visitors,
0 conversions) the pooled rate is 0, the standard error is exactly 0, and the
unguarded division of source line 32 has no real value: the z statistic and the
p-value come out NaN (`none`), not 0 and 1 as the spec's edge-case policy
requires; only the not-significant verdict agrees with the spec. -/
theorem C2_degenerate_divides_by_zero (Φ : ℝ → ℝ) :
    se ⟨100, 0⟩ ⟨100, 0⟩ = 0 ∧
    ∃ r, compute_test_result ⟨100, 0⟩ ⟨100, 0⟩ Φ = some r ∧
      r.z_statistic = none ∧ r.p_value = none ∧ ¬ r.significant := by
  have hse : se ⟨100, 0⟩ ⟨100, 0⟩ = 0 := by
    norm_num [se, p_pooled]
  have hz : z_stat ⟨100, 0⟩ ⟨100, 0⟩ = none := by
    rw [z_stat, if_pos hse]
  have hp : ∀ Ψ : ℝ → ℝ, p_value ⟨100, 0⟩ ⟨100, 0⟩ Ψ = none := by
    intro Ψ
    rw [p_value, hz]
    rfl
  refine ⟨hse, _, by rw [compute_test_result, if_neg (by norm_num)], hz, hp Φ, ?_⟩
  rintro ⟨p, hpeq, _⟩
  rw [hp Φ] at hpeq
  exact Option.noConfusion hpeq

/-- C3 evaluation: at the invalid input control = (10 visitors, 11 conversions)
the source raises nothing and the computation proceeds, yielding a control rate
of 11/10 > 1; no `InvalidInputError` (nor any validation) exists in the source. -/
theorem C3_no_input_validation (Φ : ℝ → ℝ) :
    ∃ r, compute_test_result ⟨10, 11⟩ ⟨10, 5⟩ Φ = some r ∧
      r.control_rate = 11 / 10 ∧ (1 : ℝ) < r.control_rate := by
  refine ⟨_, by rw [compute_test_result, if_neg (by norm_num)], ?_, ?_⟩
  · show p_rate ⟨10, 11⟩ = 11 / 10
    norm_num [p_rate]
  · show (1 : ℝ) < p_rate ⟨10, 11⟩
    norm_num [p_rate]

/-- C4: at the reference literal inputs the computation yields the spec's
example values — rates 0.05 and 0.058, pooled rate 0.054, standard error close
to 0.003195, z statistic close to 2.505, p-value close to 0.0123, and a
significant verdict — for every monotone CDF taking the true normal-CDF values
at the probe points 2.5 and 2.51. -/
theorem C4_reference_example (Φ : ℝ → ℝ) (hmono : Monotone Φ)
    (hlb : 0.9937 ≤ Φ 2.5) (hub : Φ 2.51 ≤ 0.994) :
    ∃ r, compute_test_result ⟨10000, 500⟩ ⟨10000, 580⟩ Φ = some r ∧
      r.control_rate = 0.05 ∧ r.variant_rate = 0.058 ∧ r.pooled_rate = 0.054 ∧
      |r.standard_error - 0.003195| ≤ 0.000002 ∧
      (∃ z, r.z_statistic = some z ∧ |z - 2.505| ≤ 0.003) ∧
      (∃ p, r.p_value = some p ∧ |p - 0.0123| ≤ 0.0005) ∧
      r.significant := by
  have hA : se ⟨10000, 500⟩ ⟨10000, 580⟩ = Real.sqrt (12771 / 1250000000) := by
    rw [se]
    congr 1
    norm_num [p_pooled]
  have hub_se : se ⟨10000, 500⟩ ⟨10000, 580⟩ ≤ 0.0031966 := by
    rw [hA]
    calc Real.sqrt (12771 / 1250000000 : ℝ) ≤ Real.sqrt ((0.0031966 : ℝ) ^ 2) :=
        Real.sqrt_le_sqrt (by norm_num)
      _ = 0.0031966 := Real.sqrt_sq (by norm_num)
  have hlb_se : (0.0031962 : ℝ) ≤ se ⟨10000, 500⟩ ⟨10000, 580⟩ := by
    rw [hA, Real.le_sqrt (by norm_num) (by norm_num)]
    norm_num
  have hse_pos : 0 < se ⟨10000, 500⟩ ⟨10000, 580⟩ :=
    lt_of_lt_of_le (by norm_num) hlb_se
  have hnum : p_rate ⟨10000, 580⟩ - p_rate ⟨10000, 500⟩ = 0.008 := by
    norm_num [p_rate]
  have hz_eq : z_stat ⟨10000, 500⟩ ⟨10000, 580⟩ =
      some (0.008 / se ⟨10000, 500⟩ ⟨10000, 580⟩) := by
    rw [z_stat, if_neg (ne_of_gt hse_pos), hnum]
  set s := se ⟨10000, 500⟩ ⟨10000, 580⟩ with hs
  have hzub : (0.008 : ℝ) / s ≤ 2.503 := by
    have h1 : (0.008 : ℝ) / s ≤ 0.008 / 0.0031962 :=
      div_le_div_of_nonneg_left (by norm_num) (by norm_num) hlb_se
    have h2 : (0.008 : ℝ) / 0.0031962 ≤ 2.503 := by norm_num
    linarith
  have hzlb : (2.5026 : ℝ) ≤ 0.008 / s := by
    have h1 : (0.008 : ℝ) / 0.0031966 ≤ 0.008 / s :=
      div_le_div_of_nonneg_left (by norm_num) hse_pos hub_se
    have h2 : (2.5026 : ℝ) ≤ 0.008 / 0.0031966 := by norm_num
    linarith
  have habs : |(0.008 : ℝ) / s| = 0.008 / s := abs_of_nonneg (by linarith)
  have hz1 : (0.9937 : ℝ) ≤ Φ (0.008 / s) := le_trans hlb (hmono (by linarith))
  have hz2 : Φ (0.008 / s) ≤ 0.994 := le_trans (hmono (by linarith)) hub
  refine ⟨_, by rw [compute_test_result, if_neg (by norm_num)],
    ?_, ?_, ?_, ?_, ?_, ?_, ?_⟩
  · show p_rate ⟨10000, 500⟩ = 0.05
    norm_num [p_rate]
  · show p_rate ⟨10000, 580⟩ = 0.058
    norm_num [p_rate]
  · show p_pooled ⟨10000, 500⟩ ⟨10000, 580⟩ = 0.054
    norm_num [p_pooled]
  · show |s - 0.003195| ≤ 0.000002
    rw [abs_le]
    constructor <;> linarith
  · exact ⟨0.008 / s, hz_eq, by rw [abs_le]; constructor <;> linarith⟩
  · refine ⟨2 * (1 - Φ |0.008 / s|), ?_, ?_⟩
    · show p_value ⟨10000, 500⟩ ⟨10000, 580⟩ Φ = _
      rw [p_value, hz_eq]
      rfl
    · rw [habs, abs_le]
      constructor <;> linarith
  · show ∃ p, p_value ⟨10000, 500⟩ ⟨10000, 580⟩ Φ = some p ∧ p < 0.05
    refine ⟨2 * (1 - Φ |0.008 / s|), ?_, ?_⟩
    · rw [p_value, hz_eq]
      rfl
    · rw [habs]
      linarith

/-- Witness for C4: the CDF hypotheses hold of the piecewise function. -/
theorem C4_reference_example_w :
    Monotone witCDF ∧ (0.9937 : ℝ) ≤ witCDF 2.5 ∧ witCDF 2.51 ≤ 0.994 ∧
    ∃ r, compute_test_result ⟨10000, 500⟩ ⟨10000, 580⟩ witCDF = some r ∧
      r.control_rate = 0.05 ∧ r.variant_rate = 0.058 ∧ r.pooled_rate = 0.054 ∧
      |r.standard_error - 0.003195| ≤ 0.000002 ∧
      (∃ z, r.z_statistic = some z ∧ |z - 2.505| ≤ 0.003) ∧
      (∃ p, r.p_value = some p ∧ |p - 0.0123| ≤ 0.0005) ∧
      r.significant :=
  ⟨witCDF_mono, witCDF_lb_25, witCDF_ub_251,
    C4_reference_example witCDF witCDF_mono witCDF_lb_25 witCDF_ub_251⟩

/-- C5: for every monotone CDF, fixed positive effect size and pooled rate
strictly between 0 and 1, the statistical power is monotonically non-decreasing
in the sample size. -/
theorem C5_power_monotone_in_sample_size (Φ : ℝ → ℝ) (hΦ : Monotone Φ)
    (effect pooled n1 n2 : ℝ) (he : 0 < effect)
    (hp0 : 0 < pooled) (hp1 : pooled < 1) (hn1 : 0 < n1) (h12 : n1 ≤ n2) :
    statistical_power Φ effect pooled n1 ≤ statistical_power Φ effect pooled n2 := by
  have hn2 : 0 < n2 := lt_of_lt_of_le hn1 h12
  have hq : 0 < pooled * (1 - pooled) := by nlinarith
  have harg2 : 0 < pooled * (1 - pooled) * (2 / n2) :=
    mul_pos hq (div_pos (by norm_num) hn2)
  have hs2 : 0 < Real.sqrt (pooled * (1 - pooled) * (2 / n2)) :=
    Real.sqrt_pos.mpr harg2
  have hfr : 2 / n2 ≤ 2 / n1 := div_le_div_of_nonneg_left (by norm_num) hn1 h12
  have hargle : pooled * (1 - pooled) * (2 / n2) ≤
      pooled * (1 - pooled) * (2 / n1) :=
    mul_le_mul_of_nonneg_left hfr (le_of_lt hq)
  have hsle : Real.sqrt (pooled * (1 - pooled) * (2 / n2)) ≤
      Real.sqrt (pooled * (1 - pooled) * (2 / n1)) := Real.sqrt_le_sqrt hargle
  have hdiv : effect / Real.sqrt (pooled * (1 - pooled) * (2 / n1)) ≤
      effect / Real.sqrt (pooled * (1 - pooled) * (2 / n2)) :=
    div_le_div_of_nonneg_left (le_of_lt he) hs2 hsle
  have hΦle := hΦ (by linarith :
    1.96 - effect / Real.sqrt (pooled * (1 - pooled) * (2 / n2)) ≤
      1.96 - effect / Real.sqrt (pooled * (1 - pooled) * (2 / n1)))
  unfold statistical_power
  linarith

/-- Witness for C5 with the piecewise CDF at effect 0.008, pooled rate 0.054
and sample sizes 1000 ≤ 2000. -/
theorem C5_power_monotone_in_sample_size_w :
    Monotone witCDF ∧ (0 : ℝ) < 0.008 ∧ (0 : ℝ) < 0.054 ∧ (0.054 : ℝ) < 1 ∧
    (0 : ℝ) < 1000 ∧ (1000 : ℝ) ≤ 2000 ∧
    statistical_power witCDF 0.008 0.054 1000 ≤
      statistical_power witCDF 0.008 0.054 2000 :=
  ⟨witCDF_mono, by norm_num, by norm_num, by norm_num, by norm_num, by norm_num,
    C5_power_monotone_in_sample_size witCDF witCDF_mono 0.008 0.054 1000 2000
      (by norm_num) (by norm_num) (by norm_num) (by norm_num) (by norm_num)⟩

/-- C6 counterexample: with the CDF instantiated at the true value
Φ(1.96) = 0.975, the power at effect size 0 evaluates to 0.025, which is not
approximately 0.05 (it is off by a factor of two, being α/2). -/
theorem C6_power_at_zero_effect_cex :
    statistical_power witCDF 0 (1 / 2) 1000 = 0.025 ∧
    ¬ |statistical_power witCDF 0 (1 / 2) 1000 - 0.05| ≤ 0.02 := by
  have h : statistical_power witCDF 0 (1 / 2) 1000 = 0.025 := by
    unfold statistical_power
    rw [zero_div, sub_zero, witCDF_at_196]
    norm_num
  refine ⟨h, ?_⟩
  rw [h, abs_le]
  intro hcon
  have := hcon.2
  linarith

/-- C6 amended: at effect size 0 the power formula evaluates to 1 - Φ(1.96)
for every sample size — the independence from the sample size claimed holds —
but that value is approximately α/2 = 0.025, not α = 0.05. -/
theorem C6_power_at_zero_effect (Φ : ℝ → ℝ)
    (hlb : 0.974 ≤ Φ 1.96) (hub : Φ 1.96 ≤ 0.976)
    (pooled n : ℝ) (hp0 : 0 < pooled) (hp1 : pooled < 1) (hn : 0 < n) :
    statistical_power Φ 0 pooled n = 1 - Φ 1.96 ∧
    |statistical_power Φ 0 pooled n - 0.025| ≤ 0.001 := by
  have h : statistical_power Φ 0 pooled n = 1 - Φ 1.96 := by
    unfold statistical_power
    rw [zero_div, sub_zero]
  refine ⟨h, ?_⟩
  rw [h, abs_le]
  constructor <;> linarith

/-- Witness for C6's amended statement with the piecewise CDF. -/
theorem C6_power_at_zero_effect_w :
    (0.974 : ℝ) ≤ witCDF 1.96 ∧ witCDF 1.96 ≤ 0.976 ∧
    statistical_power witCDF 0 (1 / 2) 2000 = 1 - witCDF 1.96 ∧
    |statistical_power witCDF 0 (1 / 2) 2000 - 0.025| ≤ 0.001 := by
  have h1 : (0.974 : ℝ) ≤ witCDF 1.96 := by rw [witCDF_at_196]; norm_num
  have h2 : witCDF 1.96 ≤ 0.976 := by rw [witCDF_at_196]; norm_num
  obtain ⟨a, b⟩ := C6_power_at_zero_effect witCDF h1 h2 (1 / 2) 2000
    (by norm_num) (by norm_num) (by norm_num)
  exact ⟨h1, h2, a, b⟩

lemma decomp_aux (a s t : ℝ) (hs : s ≠ 0) (ht : t ≠ 0) (hst : s ^ 2 + t ^ 2 = 1) :
    (s ^ 2 - a) / (s * t) = (1 - a) * (s / t) - a * (t / s) := by
  field_simp
  linear_combination (a * s * t) * hst

lemma phi_ratio_decomp (a P : ℝ) (hP0 : 0 < P) (hP1 : P < 1) :
    (P - a) / Real.sqrt (P * (1 - P)) =
      (1 - a) * (Real.sqrt P / Real.sqrt (1 - P)) -
        a * (Real.sqrt (1 - P) / Real.sqrt P) := by
  have h1P : (0 : ℝ) < 1 - P := by linarith
  have hs : 0 < Real.sqrt P := Real.sqrt_pos.mpr hP0
  have ht : 0 < Real.sqrt (1 - P) := Real.sqrt_pos.mpr h1P
  have hsq : Real.sqrt P ^ 2 = P := Real.sq_sqrt (le_of_lt hP0)
  have htq : Real.sqrt (1 - P) ^ 2 = 1 - P := Real.sq_sqrt (le_of_lt h1P)
  have hmul : Real.sqrt (P * (1 - P)) = Real.sqrt P * Real.sqrt (1 - P) :=
    Real.sqrt_mul (le_of_lt hP0) _
  have key := decomp_aux a (Real.sqrt P) (Real.sqrt (1 - P))
    (ne_of_gt hs) (ne_of_gt ht) (by rw [hsq, htq]; ring)
  rw [hsq] at key
  rw [hmul]
  exact key

lemma phi_ratio_mono (a P Q : ℝ) (ha0 : 0 ≤ a) (ha1 : a ≤ 1)
    (hP0 : 0 < P) (hP1 : P < 1) (hQ0 : 0 < Q) (hQ1 : Q < 1) (hPQ : P ≤ Q) :
    (P - a) / Real.sqrt (P * (1 - P)) ≤ (Q - a) / Real.sqrt (Q * (1 - Q)) := by
  rw [phi_ratio_decomp a P hP0 hP1, phi_ratio_decomp a Q hQ0 hQ1]
  have h1 : Real.sqrt P / Real.sqrt (1 - P) ≤ Real.sqrt Q / Real.sqrt (1 - Q) :=
    div_le_div (Real.sqrt_nonneg _) (Real.sqrt_le_sqrt hPQ)
      (Real.sqrt_pos.mpr (by linarith)) (Real.sqrt_le_sqrt (by linarith))
  have h2 : Real.sqrt (1 - Q) / Real.sqrt Q ≤ Real.sqrt (1 - P) / Real.sqrt P :=
    div_le_div (Real.sqrt_nonneg _) (Real.sqrt_le_sqrt (by linarith))
      (Real.sqrt_pos.mpr hP0) (Real.sqrt_le_sqrt hPQ)
  have g1 : (1 - a) * (Real.sqrt P / Real.sqrt (1 - P)) ≤
      (1 - a) * (Real.sqrt Q / Real.sqrt (1 - Q)) :=
    mul_le_mul_of_nonneg_left h1 (by linarith)
  have g2 : a * (Real.sqrt (1 - Q) / Real.sqrt Q) ≤
      a * (Real.sqrt (1 - P) / Real.sqrt P) :=
    mul_le_mul_of_nonneg_left h2 ha0
  linarith

lemma pooled_in_unit (nc nv c x : ℕ) (hnc : 0 < nc) (hnv : 0 < nv)
    (hc : c ≤ nc) (hx : x ≤ nv) (hse : se ⟨nc, c⟩ ⟨nv, x⟩ ≠ 0) :
    0 < p_pooled ⟨nc, c⟩ ⟨nv, x⟩ ∧ p_pooled ⟨nc, c⟩ ⟨nv, x⟩ < 1 := by
  have hncR : (0 : ℝ) < (nc : ℝ) := by exact_mod_cast hnc
  have hnvR : (0 : ℝ) < (nv : ℝ) := by exact_mod_cast hnv
  have hP0 : 0 ≤ p_pooled ⟨nc, c⟩ ⟨nv, x⟩ := by
    show (0 : ℝ) ≤ ((c : ℝ) + (x : ℝ)) / ((nc : ℝ) + (nv : ℝ))
    positivity
  have hP1 : p_pooled ⟨nc, c⟩ ⟨nv, x⟩ ≤ 1 := by
    show ((c : ℝ) + (x : ℝ)) / ((nc : ℝ) + (nv : ℝ)) ≤ 1
    rw [div_le_one (by linarith)]
    exact add_le_add (Nat.cast_le.mpr hc) (Nat.cast_le.mpr hx)
  have hKpos : (0 : ℝ) < 1 / (nc : ℝ) + 1 / (nv : ℝ) := by positivity
  have harg : 0 < p_pooled ⟨nc, c⟩ ⟨nv, x⟩ * (1 - p_pooled ⟨nc, c⟩ ⟨nv, x⟩) *
      (1 / (nc : ℝ) + 1 / (nv : ℝ)) := by
    rw [se, Real.sqrt_ne_zero'] at hse
    exact hse
  have hPP : 0 < p_pooled ⟨nc, c⟩ ⟨nv, x⟩ * (1 - p_pooled ⟨nc, c⟩ ⟨nv, x⟩) := by
    nlinarith
  constructor
  · nlinarith
  · nlinarith

lemma z_val_eq (nc nv c x : ℕ) (hnc : 0 < nc) (hnv : 0 < nv)
    (hS : Real.sqrt (p_pooled ⟨nc, c⟩ ⟨nv, x⟩ *
      (1 - p_pooled ⟨nc, c⟩ ⟨nv, x⟩)) ≠ 0)
    (hPP : 0 ≤ p_pooled ⟨nc, c⟩ ⟨nv, x⟩ * (1 - p_pooled ⟨nc, c⟩ ⟨nv, x⟩)) :
    (p_rate ⟨nv, x⟩ - p_rate ⟨nc, c⟩) / se ⟨nc, c⟩ ⟨nv, x⟩ =
      (((nc : ℝ) + (nv : ℝ)) /
          ((nv : ℝ) * Real.sqrt (1 / (nc : ℝ) + 1 / (nv : ℝ)))) *
        ((p_pooled ⟨nc, c⟩ ⟨nv, x⟩ - (c : ℝ) / (nc : ℝ)) /
          Real.sqrt (p_pooled ⟨nc, c⟩ ⟨nv, x⟩ *
            (1 - p_pooled ⟨nc, c⟩ ⟨nv, x⟩))) := by
  have hncR : (0 : ℝ) < (nc : ℝ) := by exact_mod_cast hnc
  have hnvR : (0 : ℝ) < (nv : ℝ) := by exact_mod_cast hnv
  have hKpos : (0 : ℝ) < 1 / (nc : ℝ) + 1 / (nv : ℝ) := by positivity
  have hKs : Real.sqrt (1 / (nc : ℝ) + 1 / (nv : ℝ)) ≠ 0 :=
    ne_of_gt (Real.sqrt_pos.mpr hKpos)
  have hsplit : se ⟨nc, c⟩ ⟨nv, x⟩ =
      Real.sqrt (p_pooled ⟨nc, c⟩ ⟨nv, x⟩ * (1 - p_pooled ⟨nc, c⟩ ⟨nv, x⟩)) *
        Real.sqrt (1 / (nc : ℝ) + 1 / (nv : ℝ)) := by
    rw [se, ← Real.sqrt_mul hPP]
  have hnum : p_rate ⟨nv, x⟩ - p_rate ⟨nc, c⟩ =
      (((nc : ℝ) + (nv : ℝ)) / (nv : ℝ)) *
        (p_pooled ⟨nc, c⟩ ⟨nv, x⟩ - (c : ℝ) / (nc : ℝ)) := by
    show (x : ℝ) / (nv : ℝ) - (c : ℝ) / (nc : ℝ) =
      (((nc : ℝ) + (nv : ℝ)) / (nv : ℝ)) *
        (((c : ℝ) + (x : ℝ)) / ((nc : ℝ) + (nv : ℝ)) - (c : ℝ) / (nc : ℝ))
    field_simp
    ring
  rw [hsplit, hnum]
  field_simp
  ring

/-- C7: with both visitor counts fixed and conversion counts within range,
increasing the variant conversions never decreases the z statistic, at every
pair of points where the statistic is defined (nonzero standard error). -/
theorem C7_z_monotone_in_variant_conversions (nc nv c x1 x2 : ℕ)
    (hnc : 0 < nc) (hnv : 0 < nv) (hc : c ≤ nc)
    (hx2 : x2 ≤ nv) (h12 : x1 ≤ x2) (z1 z2 : ℝ)
    (h1 : z_stat ⟨nc, c⟩ ⟨nv, x1⟩ = some z1)
    (h2 : z_stat ⟨nc, c⟩ ⟨nv, x2⟩ = some z2) :
    z1 ≤ z2 := by
  have hx1 : x1 ≤ nv := le_trans h12 hx2
  have hse1 : se ⟨nc, c⟩ ⟨nv, x1⟩ ≠ 0 := by
    intro h
    rw [z_stat, if_pos h] at h1
    exact Option.noConfusion h1
  have hse2 : se ⟨nc, c⟩ ⟨nv, x2⟩ ≠ 0 := by
    intro h
    rw [z_stat, if_pos h] at h2
    exact Option.noConfusion h2
  have hz1 : (p_rate ⟨nv, x1⟩ - p_rate ⟨nc, c⟩) / se ⟨nc, c⟩ ⟨nv, x1⟩ = z1 := by
    rw [z_stat, if_neg hse1] at h1
    exact Option.some.inj h1
  have hz2 : (p_rate ⟨nv, x2⟩ - p_rate ⟨nc, c⟩) / se ⟨nc, c⟩ ⟨nv, x2⟩ = z2 := by
    rw [z_stat, if_neg hse2] at h2
    exact Option.some.inj h2
  obtain ⟨hP10, hP11⟩ := pooled_in_unit nc nv c x1 hnc hnv hc hx1 hse1
  obtain ⟨hP20, hP21⟩ := pooled_in_unit nc nv c x2 hnc hnv hc hx2 hse2
  have hncR : (0 : ℝ) < (nc : ℝ) := by exact_mod_cast hnc
  have hnvR : (0 : ℝ) < (nv : ℝ) := by exact_mod_cast hnv
  have hS1 : Real.sqrt (p_pooled ⟨nc, c⟩ ⟨nv, x1⟩ *
      (1 - p_pooled ⟨nc, c⟩ ⟨nv, x1⟩)) ≠ 0 :=
    ne_of_gt (Real.sqrt_pos.mpr (by nlinarith))
  have hS2 : Real.sqrt (p_pooled ⟨nc, c⟩ ⟨nv, x2⟩ *
      (1 - p_pooled ⟨nc, c⟩ ⟨nv, x2⟩)) ≠ 0 :=
    ne_of_gt (Real.sqrt_pos.mpr (by nlinarith))
  have hPmono : p_pooled ⟨nc, c⟩ ⟨nv, x1⟩ ≤ p_pooled ⟨nc, c⟩ ⟨nv, x2⟩ := by
    show ((c : ℝ) + (x1 : ℝ)) / ((nc : ℝ) + (nv : ℝ)) ≤
      ((c : ℝ) + (x2 : ℝ)) / ((nc : ℝ) + (nv : ℝ))
    exact (div_le_div_right (by linarith)).mpr
      (add_le_add le_rfl (Nat.cast_le.mpr h12))
  rw [← hz1, ← hz2,
    z_val_eq nc nv c x1 hnc hnv hS1 (by nlinarith),
    z_val_eq nc nv c x2 hnc hnv hS2 (by nlinarith)]
  apply mul_le_mul_of_nonneg_left
  · exact phi_ratio_mono ((c : ℝ) / (nc : ℝ)) _ _ (by positivity)
      ((div_le_one hncR).mpr (Nat.cast_le.mpr hc)) hP10 hP11 hP20 hP21 hPmono
  · positivity

lemma se_42_42_pos : 0 < se ⟨4, 2⟩ ⟨4, 2⟩ := by
  rw [se, Real.sqrt_pos]
  norm_num [p_pooled]

lemma se_42_43_pos : 0 < se ⟨4, 2⟩ ⟨4, 3⟩ := by
  rw [se, Real.sqrt_pos]
  norm_num [p_pooled]

/-- Witness for C7 with both arms of 4 visitors, control at 2 conversions, and
variant conversions increased from 2 to 3. -/
theorem C7_z_monotone_in_variant_conversions_w :
    z_stat ⟨4, 2⟩ ⟨4, 2⟩ = some 0 ∧
    z_stat ⟨4, 2⟩ ⟨4, 3⟩ =
      some ((1 / 4) / Real.sqrt ((5 / 8) * (1 - 5 / 8) * (1 / 4 + 1 / 4))) ∧
    (0 : ℝ) ≤ (1 / 4) / Real.sqrt ((5 / 8) * (1 - 5 / 8) * (1 / 4 + 1 / 4)) := by
  have e1 : z_stat ⟨4, 2⟩ ⟨4, 2⟩ = some 0 := by
    rw [z_stat, if_neg (ne_of_gt se_42_42_pos)]
    norm_num [p_rate]
  have e2 : z_stat ⟨4, 2⟩ ⟨4, 3⟩ =
      some ((1 / 4) / Real.sqrt ((5 / 8) * (1 - 5 / 8) * (1 / 4 + 1 / 4))) := by
    rw [z_stat, if_neg (ne_of_gt se_42_43_pos)]
    norm_num [p_rate, se, p_pooled]
  exact ⟨e1, e2, C7_z_monotone_in_variant_conversions 4 4 2 2 3 (by norm_num)
    (by norm_num) (by norm_num) (by norm_num) (by norm_num) _ _ e1 e2⟩

lemma sampleGrid_ne_nil (lo hi : ℝ) : sampleGrid lo hi ≠ [] := by
  intro h
  have hlen := congrArg List.length h
  rw [sampleGrid, List.length_map, List.length_range] at hlen
  simp at hlen

lemma sampleGrid_mem_bounds (lo hi : ℝ) (h : lo ≤ hi) (g : ℝ)
    (hg : g ∈ sampleGrid lo hi) : lo ≤ g ∧ g ≤ hi := by
  rw [sampleGrid, List.mem_map] at hg
  obtain ⟨i, hmem, hgi⟩ := hg
  rw [List.mem_range] at hmem
  have hle99 : i ≤ 99 := by omega
  have hiR : (i : ℝ) ≤ 99 := by exact_mod_cast hle99
  have hiR0 : (0 : ℝ) ≤ (i : ℝ) := Nat.cast_nonneg i
  subst hgi
  constructor
  · have hnn : (0 : ℝ) ≤ (i : ℝ) * (hi - lo) / 99 :=
      div_nonneg (mul_nonneg hiR0 (by linarith)) (by norm_num)
    linarith
  · have hub : (i : ℝ) * (hi - lo) / 99 ≤ hi - lo := by
      rw [div_le_iff₀ (by norm_num : (0 : ℝ) < 99)]
      nlinarith
    linarith

lemma minimum_sample_mem (Φ : ℝ → ℝ) (target effect pooled lo hi : ℝ) :
    minimum_sample_size_for_power Φ target effect pooled lo hi ∈
      sampleGrid lo hi ∧
    ∀ g ∈ sampleGrid lo hi,
      |statistical_power Φ effect pooled
          (minimum_sample_size_for_power Φ target effect pooled lo hi) -
        target| ≤ |statistical_power Φ effect pooled g - target| := by
  unfold minimum_sample_size_for_power
  cases hm : (sampleGrid lo hi).argmin
      (fun n => |statistical_power Φ effect pooled n - target|) with
  | none => exact absurd (List.argmin_eq_none.mp hm) (sampleGrid_ne_nil lo hi)
  | some m =>
      simp only [Option.getD_some]
      refine ⟨List.argmin_mem hm, fun g hg => ?_⟩
      have hle := @List.le_of_mem_argmin ℝ ℝ _
        (fun n => |statistical_power Φ effect pooled n - target|)
        (sampleGrid lo hi) g m hg hm
      simpa using hle

/-- C9 amended: the closest-match search always returns a grid point, hence a
value within the search range, and that point's power is the closest on the
grid to the target; consequently the returned power is at least
target - δ whenever some grid point's power is within δ of the target.  (It is
not at least target minus a small tolerance unconditionally; see the
counterexample.) -/
theorem C9_minimum_sample_size (Φ : ℝ → ℝ) (target effect pooled lo hi : ℝ)
    (h : lo ≤ hi) :
    (lo ≤ minimum_sample_size_for_power Φ target effect pooled lo hi ∧
      minimum_sample_size_for_power Φ target effect pooled lo hi ≤ hi) ∧
    (∀ g ∈ sampleGrid lo hi,
      |statistical_power Φ effect pooled
          (minimum_sample_size_for_power Φ target effect pooled lo hi) -
        target| ≤ |statistical_power Φ effect pooled g - target|) ∧
    (∀ δ : ℝ, (∃ g ∈ sampleGrid lo hi,
        |statistical_power Φ effect pooled g - target| ≤ δ) →
      target - δ ≤ statistical_power Φ effect pooled
        (minimum_sample_size_for_power Φ target effect pooled lo hi)) := by
  obtain ⟨hmem, hopt⟩ := minimum_sample_mem Φ target effect pooled lo hi
  refine ⟨sampleGrid_mem_bounds lo hi h _ hmem, hopt, ?_⟩
  rintro δ ⟨g, hg, hδ⟩
  have h1 := le_trans (hopt g hg) hδ
  have h2 := abs_le.mp h1
  linarith [h2.1]

/-- Witness for C9's amended statement at the reference parameters. -/
theorem C9_minimum_sample_size_w :
    (1000 : ℝ) ≤ 50000 ∧
    (1000 ≤ minimum_sample_size_for_power witCDF 0.8 0.008 0.054 1000 50000 ∧
      minimum_sample_size_for_power witCDF 0.8 0.008 0.054 1000 50000 ≤ 50000) ∧
    (∀ g ∈ sampleGrid 1000 50000,
      |statistical_power witCDF 0.008 0.054
          (minimum_sample_size_for_power witCDF 0.8 0.008 0.054 1000 50000) -
        0.8| ≤ |statistical_power witCDF 0.008 0.054 g - 0.8|) ∧
    (∀ δ : ℝ, (∃ g ∈ sampleGrid 1000 50000,
        |statistical_power witCDF 0.008 0.054 g - 0.8| ≤ δ) →
      0.8 - δ ≤ statistical_power witCDF 0.008 0.054
        (minimum_sample_size_for_power witCDF 0.8 0.008 0.054 1000 50000)) :=
  ⟨by norm_num,
    C9_minimum_sample_size witCDF 0.8 0.008 0.054 1000 50000 (by norm_num)⟩

/-- C9 counterexample: at effect size 0 every grid point has power
1 - Φ(1.96) = 0.025, so the power at the returned value is 0.025 — far below
the target 0.8, even granting a tolerance as large as 0.5. -/
theorem C9_minimum_sample_size_cex :
    statistical_power witCDF 0 (1 / 2)
        (minimum_sample_size_for_power witCDF 0.8 0 (1 / 2) 1000 50000) =
      0.025 ∧
    ¬ (0.8 - 0.5 : ℝ) ≤ statistical_power witCDF 0 (1 / 2)
        (minimum_sample_size_for_power witCDF 0.8 0 (1 / 2) 1000 50000) := by
  have h : ∀ n : ℝ, statistical_power witCDF 0 (1 / 2) n = 0.025 := by
    intro n
    unfold statistical_power
    rw [zero_div, sub_zero, witCDF_at_196]
    norm_num
  rw [h]
  norm_num

/-- C8: `confidence_interval` returns exactly `(rate - margin, rate + margin)`
with `margin = z_critical · √(rate·(1-rate)/n)`, with no clamping to [0,1]:
already at rate 0.05 with n = 20 the lower bound is negative. -/
theorem C8_confidence_interval_unclamped :
    (∀ (rate : ℝ) (n : ℕ) (zc : ℝ),
        confidence_interval rate n zc =
          (rate - zc * Real.sqrt (rate * (1 - rate) / (n : ℝ)),
           rate + zc * Real.sqrt (rate * (1 - rate) / (n : ℝ)))) ∧
    (confidence_interval 0.05 20 1.96).1 < 0 := by
  constructor
  · intro rate n zc
    rfl
  · show (0.05 : ℝ) - 1.96 * Real.sqrt (0.05 * (1 - 0.05) / ((20 : ℕ) : ℝ)) < 0
    have h1 : (0.04 : ℝ) ≤ Real.sqrt (0.05 * (1 - 0.05) / ((20 : ℕ) : ℝ)) := by
      rw [Real.le_sqrt (by norm_num) (by positivity)]
      push_cast
      norm_num
    linarith

/-- C10: with zero control conversions the relative-lift computation divides by
a zero control rate and fails; it succeeds whenever control conversions are
positive, so the run is total only under the unstated precondition
`0 < control.conversions`. -/
theorem C10_relative_lift_division (control variant : Variant)
    (hc : 0 < control.visitors) :
    (control.conversions = 0 → relative_lift control variant = none) ∧
    (0 < control.conversions → ∃ x, relative_lift control variant = some x) := by
  constructor
  · intro h0
    have hz : p_rate control = 0 := by simp [p_rate, h0]
    simp [relative_lift, hz]
  · intro hpos
    have h1 : (0 : ℝ) < (control.conversions : ℝ) := by exact_mod_cast hpos
    have h2 : (0 : ℝ) < (control.visitors : ℝ) := by exact_mod_cast hc
    have hne : p_rate control ≠ 0 := by
      unfold p_rate
      exact ne_of_gt (div_pos h1 h2)
    exact ⟨(p_rate variant - p_rate control) / p_rate control * 100,
      by rw [relative_lift, if_neg hne]⟩

/-- Witness for C10 at control = (100 visitors, 0 conversions),
variant = (100 visitors, 5 conversions). -/
theorem C10_relative_lift_division_w :
    0 < (100 : ℕ) ∧ relative_lift ⟨100, 0⟩ ⟨100, 5⟩ = none :=
  ⟨by decide, (C10_relative_lift_division ⟨100, 0⟩ ⟨100, 5⟩ (by decide)).1 rfl⟩

end

end ABTest
